import Mathlib

/-!
# Verification of `geolocator` (`src/main.py`)

A shallow embedding of the single public function
`get_nearby_objects_osm(lat, lon, radius, filter_types)`:

* the query builder (lines 23-52 of `main.py`), which turns the requested
  category names into Overpass predicate clauses, and
* the result normalizer (lines 54-138), which walks `data["elements"]`,
  deduplicates by name, resolves coordinates, classifies by tags, filters by
  the requested categories and assembles the output records; Python
  `KeyError` raised inside the loop is modelled by an `Option`-valued loop
  whose `none` outcome corresponds to the batch-level handler at lines
  136-138 that returns an empty list.

Coordinates and the radius are only ever interpolated into strings by the
program, so they are modelled as the strings that would be interpolated.
Python dicts of tags are modelled as association lists (first binding wins).
-/

set_option autoImplicit false

namespace Geolocator

/-- An association list of OSM tags, modelling the Python `tags` dict. -/
abbrev Tags := List (String × String)

/-- `tags.get(key)`: first binding for `key`, if any. -/
def tagGet : Tags → String → Option String
  | [], _ => none
  | (k, v) :: rest, key => if k = key then some v else tagGet rest key

/-- Python `"key" in tags and tags["key"] in values`. -/
def tagIs (tags : Tags) (key : String) (values : List String) : Bool :=
  match tagGet tags key with
  | some v => values.contains v
  | none => false

/-- Models Python `str.lower` on one character, covering the alphabets the
program actually compares: ASCII letters and the Cyrillic block А-Я / Ё. -/
def lowerChar (c : Char) : Char :=
  if 65 ≤ c.toNat ∧ c.toNat ≤ 90 then Char.ofNat (c.toNat + 32)
  else if 0x410 ≤ c.toNat ∧ c.toNat ≤ 0x42F then Char.ofNat (c.toNat + 32)
  else if c.toNat = 0x401 then Char.ofNat 0x451
  else c

/-- Models Python `str.lower` (`f_type.lower()`, `religion.lower()`),
applied characterwise. -/
def pyLower (s : String) : String :=
  String.mk (s.data.map lowerChar)

/-- The default `filter_types` argument of `get_nearby_objects_osm`. -/
def defaultFilterTypes : List String :=
  ["статуя", "памятник", "церковь", "дацан", "мечеть", "индуистский храм",
   "музей", "достопримечательность"]

/-- One Overpass predicate clause, e.g.
`f'node(around:{radius},{lat},{lon})["artwork"="statue"]["name"]'`. -/
def clause (kind radius lat lon pred : String) : String :=
  kind ++ "(around:" ++ radius ++ "," ++ lat ++ "," ++ lon ++ ")" ++ pred

/-- The clauses one entry of `filter_types` contributes to `query_parts`
(the `for f_type in filter_types` body, lines 24-44). An unrecognized
category name contributes no clause. -/
def clausesFor (radius lat lon f_type : String) : List String :=
  let t := pyLower f_type
  if t = "статуя" then
    [clause "node" radius lat lon "[\x22artwork\x22=\x22statue\x22][\x22name\x22]",
     clause "node" radius lat lon "[\x22artwork\x22=\x22sculpture\x22][\x22name\x22]",
     clause "way" radius lat lon "[\x22artwork\x22=\x22statue\x22][\x22name\x22]",
     clause "way" radius lat lon "[\x22artwork\x22=\x22sculpture\x22][\x22name\x22]"]
  else if t = "памятник" then
    [clause "node" radius lat lon "[\x22historic\x22=\x22monument\x22][\x22name\x22]",
     clause "node" radius lat lon "[\x22historic\x22=\x22memorial\x22][\x22name\x22]",
     clause "way" radius lat lon "[\x22historic\x22=\x22monument\x22][\x22name\x22]",
     clause "way" radius lat lon "[\x22historic\x22=\x22memorial\x22][\x22name\x22]"]
  else if t = "церковь" ∨ t = "дацан" ∨ t = "мечеть" ∨ t = "индуистский храм" then
    [clause "node" radius lat lon "[\x22amenity\x22=\x22place_of_worship\x22][\x22name\x22]",
     clause "way" radius lat lon "[\x22amenity\x22=\x22place_of_worship\x22][\x22name\x22]"]
  else if t = "музей" then
    [clause "node" radius lat lon "[\x22tourism\x22=\x22museum\x22][\x22name\x22]",
     clause "way" radius lat lon "[\x22tourism\x22=\x22museum\x22][\x22name\x22]"]
  else if t = "достопримечательность" then
    [clause "node" radius lat lon "[\x22tourism\x22][\x22name\x22]",
     clause "way" radius lat lon "[\x22tourism\x22][\x22name\x22]"]
  else []

/-- The accumulated `query_parts` list (lines 23-44). -/
def query_parts (radius lat lon : String) (filter_types : List String) : List String :=
  filter_types.flatMap (clausesFor radius lat lon)

/-- The full query text (lines 46-52). -/
def query (radius lat lon : String) (filter_types : List String) : String :=
  "\n    [out:json];\n    (\n      " ++
    String.intercalate " ; " (query_parts radius lat lon filter_types) ++
    ";\n    );\n    out center;\n    "

/-- The nested `element["center"]` mapping; its `lat` / `lon` entries may be
absent (absence means Python raised `KeyError`). -/
structure Center where
  clat : Option String
  clon : Option String
  deriving DecidableEq

/-- One entry of `data["elements"]`. Every field the program accesses with
`element[...]` is `Option`al: `none` means the key is absent and the access
raises `KeyError`. `element.get("tags", {})` defaults to the empty dict. -/
structure RawElement where
  etype : Option String
  elat : Option String
  elon : Option String
  center : Option Center
  tags : Option Tags
  deriving DecidableEq

/-- The record dict appended to `objects` (lines 120-129). -/
structure PoiRecord where
  name : String
  type : String
  osm_url : String
  yandex_url : String
  website : String
  longitude : String
  latitude : String
  address : String
  deriving DecidableEq

/-- Uppercase hex digit of `n < 16`, as used by `urllib.parse.quote`. -/
def hexDigit (n : Nat) : Char :=
  if n < 10 then Char.ofNat (48 + n) else Char.ofNat (55 + n)

/-- Bytes `urllib.parse.quote` leaves unescaped with the default
`safe='/'`: ASCII letters, digits, `_ . - ~` and `/`. -/
def quoteSafeByte (n : Nat) : Bool :=
  (65 ≤ n ∧ n ≤ 90) ∨ (97 ≤ n ∧ n ≤ 122) ∨ (48 ≤ n ∧ n ≤ 57) ∨
    n = 95 ∨ n = 46 ∨ n = 45 ∨ n = 126 ∨ n = 47

/-- The UTF-8 encoding of one code point, as byte values. -/
def utf8Bytes (c : Char) : List Nat :=
  let n := c.toNat
  if n < 0x80 then [n]
  else if n < 0x800 then [0xC0 + n / 0x40, 0x80 + n % 0x40]
  else if n < 0x10000 then
    [0xE0 + n / 0x1000, 0x80 + (n / 0x40) % 0x40, 0x80 + n % 0x40]
  else
    [0xF0 + n / 0x40000, 0x80 + (n / 0x1000) % 0x40, 0x80 + (n / 0x40) % 0x40,
     0x80 + n % 0x40]

/-- `urllib.parse.quote(name)`: percent-encode each UTF-8 byte outside the
safe set, with uppercase hex. -/
def quote (s : String) : String :=
  String.join ((s.data.flatMap utf8Bytes).map fun n =>
    if quoteSafeByte n then String.singleton (Char.ofNat n)
    else "%" ++ String.singleton (hexDigit (n / 16)) ++ String.singleton (hexDigit (n % 16)))

/-- Python `a or b` for an optional string `a` and default `b`
(the empty string is falsy). -/
def orElseStr (a : Option String) (b : String) : String :=
  match a with
  | some s => if s = "" then b else s
  | none => b

/-- `tags.get("website") or tags.get("contact:website") or "Сайт отсутствует"`
(line 95). -/
def resolveWebsite (tags : Tags) : String :=
  orElseStr (tagGet tags "website") (orElseStr (tagGet tags "contact:website") "Сайт отсутствует")

/-- One `if tags.get(key): address_parts.append(tags[key])` step
(lines 83-92: a present but empty value is falsy and skipped). -/
def addPart (parts : List String) (v : Option String) : List String :=
  match v with
  | some s => if s = "" then parts else parts ++ [s]
  | none => parts

/-- The address assembly of lines 82-94. -/
def buildAddress (tags : Tags) : String :=
  let parts : List String := []
  let parts := addPart parts (tagGet tags "addr:street")
  let parts := addPart parts (tagGet tags "addr:housenumber")
  let parts := addPart parts (tagGet tags "addr:city")
  let parts := addPart parts (tagGet tags "addr:postcode")
  let parts := addPart parts (tagGet tags "addr:country")
  if parts = [] then "Адрес не указан" else String.intercalate ", " parts

/-- The religion split inside the worship branch (lines 103-111): an
unrecognized or absent religion leaves `obj_type` at the initial
`"интересное место"`. -/
def worshipType (religion : String) : String :=
  if religion = "christian" then "церковь"
  else if religion = "buddhist" then "дацан"
  else if religion = "muslim" then "мечеть"
  else if religion = "hindu" then "индуистский храм"
  else "интересное место"

/-- The `obj_type` classification chain of lines 97-115 (first match wins). -/
def classify (tags : Tags) : String :=
  if tagIs tags "artwork" ["statue", "sculpture"] then "статуя"
  else if tagIs tags "historic" ["monument", "memorial"] then "памятник"
  else if tagIs tags "amenity" ["place_of_worship"] then
    worshipType (pyLower ((tagGet tags "religion").getD ""))
  else if tagIs tags "tourism" ["museum"] then "музей"
  else if (tagGet tags "tourism").isSome then "достопримечательность"
  else "интересное место"

/-- Coordinate resolution (lines 70-75): a `"node"` uses its own
`lat` / `lon`, anything else uses `element["center"]`; `none` is the
`KeyError` raised when a needed key is absent (including `element["type"]`
itself). -/
def resolveCoords (e : RawElement) : Option (String × String) :=
  match e.etype with
  | none => none
  | some t =>
    if t = "node" then
      match e.elat, e.elon with
      | some la, some lo => some (la, lo)
      | _, _ => none
    else
      match e.center with
      | none => none
      | some c =>
        match c.clat, c.clon with
        | some la, some lo => some (la, lo)
        | _, _ => none

/-- The `name` the loop extracts from an element (line 65). -/
def elementName (e : RawElement) : Option String :=
  tagGet (e.tags.getD []) "name"

/-- The dict appended to `objects` for a named element with resolved
coordinates (lines 77-129). -/
def mkRecord (name la lo : String) (tags : Tags) : PoiRecord :=
  { name := name,
    type := classify tags,
    osm_url := "https://www.openstreetmap.org/?mlat=" ++ la ++ "&mlon=" ++ lo ++
      "#map=16/" ++ la ++ "/" ++ lo,
    yandex_url := "https://yandex.ru/maps/?ll=" ++ lo ++ "," ++ la ++
      "&z=16&text=" ++ quote name ++ "&pt=" ++ lo ++ "," ++ la ++ ",pm2rdm",
    website := resolveWebsite tags,
    longitude := lo,
    latitude := la,
    address := buildAddress tags }

/-- Outcome of one iteration of the `for element in data["elements"]` loop. -/
inductive ElemStep where
  /-- A `KeyError` was raised (caught only by the batch-level handler). -/
  | err : ElemStep
  /-- `continue` before the name was recorded: no name, empty name, or
  name already seen. -/
  | skip : ElemStep
  /-- Name recorded in `seen_names`, record dropped by the
  `obj_type not in filter_types` filter (lines 117-118). -/
  | dropped : String → ElemStep
  /-- Name recorded and record appended to `objects`. -/
  | keep : String → PoiRecord → ElemStep
  deriving DecidableEq

/-- One iteration of the loop body (lines 62-129) for element `e`, given the
current `seen_names`. -/
def processElement (filter_types : List String) (seen : List String) (e : RawElement) :
    ElemStep :=
  match elementName e with
  | none => .skip
  | some name =>
    if name = "" ∨ seen.contains name then .skip
    else
      match resolveCoords e with
      | none => .err
      | some (la, lo) =>
        let r := mkRecord name la lo (e.tags.getD [])
        if filter_types.contains r.type then .keep name r else .dropped name

/-- The whole loop (lines 59-131): returns the accumulated `objects` and the
final `seen_names`, or `none` when some iteration raised `KeyError` (so
control reached the handler at lines 136-138). -/
def normalizeFull (filter_types : List String) :
    List RawElement → List String → Option (List PoiRecord × List String)
  | [], seen => some ([], seen)
  | e :: es, seen =>
    match processElement filter_types seen e with
    | .err => none
    | .skip => normalizeFull filter_types es seen
    | .dropped n => normalizeFull filter_types es (n :: seen)
    | .keep n r =>
      match normalizeFull filter_types es (n :: seen) with
      | none => none
      | some (out, s) => some (r :: out, s)

/-- The list the caller receives once a well-formed response body is in hand:
the loop's `objects` on success, the handler's `[]` on `KeyError`. -/
def normalize (filter_types : List String) (es : List RawElement) : List PoiRecord :=
  match normalizeFull filter_types es [] with
  | none => []
  | some (out, _) => out

/-- The observable outcome of the HTTP exchange of lines 55-57: either a
`requests.exceptions.RequestException` (network failure, or the non-2xx
status surfaced by `raise_for_status`), or a parsed body whose top-level
`"elements"` key may be absent. -/
inductive HttpOutcome where
  /-- `requests` raised; the message is the exception text. -/
  | transportError : String → HttpOutcome
  /-- A 2xx JSON body; `none` models a missing `"elements"` key. -/
  | ok : Option (List RawElement) → HttpOutcome

/-- The public function (lines 54-138) as a function of the HTTP outcome:
returns the result list together with the diagnostic printed by an `except`
branch, if any. -/
def get_nearby_objects_osm (resp : HttpOutcome) (filter_types : List String) :
    List PoiRecord × Option String :=
  match resp with
  | .transportError msg => ([], some ("Ошибка при запросе к Overpass API: " ++ msg))
  | .ok none => ([], some "Ошибка при обработке ответа: 'elements'")
  | .ok (some es) =>
    match normalizeFull filter_types es [] with
    | none => ([], some "Ошибка при обработке ответа: KeyError")
    | some (out, _) => (out, none)

/-! ## Basic lemmas -/

theorem mkRecord_name (n la lo : String) (tags : Tags) : (mkRecord n la lo tags).name = n :=
  rfl

theorem mkRecord_type (n la lo : String) (tags : Tags) :
    (mkRecord n la lo tags).type = classify tags :=
  rfl

theorem mkRecord_address (n la lo : String) (tags : Tags) :
    (mkRecord n la lo tags).address = buildAddress tags :=
  rfl

theorem contains_iff (l : List String) (a : String) : l.contains a = true ↔ a ∈ l := by
  simp

/-- Inversion for a `skip` step: the element had no name, an empty name, or
an already-seen name. -/
theorem processElement_skip_inv {f seen : List String} {e : RawElement}
    (h : processElement f seen e = .skip) :
    elementName e = none ∨ ∃ n, elementName e = some n ∧ (n = "" ∨ n ∈ seen) := by
  unfold processElement at h
  split at h
  · rename_i hn
    exact Or.inl hn
  · rename_i name hn
    refine Or.inr ⟨name, hn, ?_⟩
    split at h
    · rename_i hc
      rcases hc with hc | hc
      · exact Or.inl hc
      · exact Or.inr ((contains_iff seen name).mp hc)
    · split at h
      · cases h
      · dsimp only at h
        split at h <;> cases h

/-- Inversion for a `dropped` step. -/
theorem processElement_dropped_inv {f seen : List String} {e : RawElement} {n : String}
    (h : processElement f seen e = .dropped n) :
    elementName e = some n ∧ n ≠ "" ∧ n ∉ seen ∧
      f.contains (classify (e.tags.getD [])) = false ∧
      ∃ la lo, resolveCoords e = some (la, lo) := by
  unfold processElement at h
  split at h
  · cases h
  · rename_i name hn
    split at h
    · cases h
    · rename_i hc
      push_neg at hc
      split at h
      · cases h
      · rename_i la lo hr
        dsimp only at h
        split at h
        · cases h
        · rename_i hf
          cases h
          refine ⟨hn, hc.1, ?_, ?_, la, lo, hr⟩
          · intro hmem
            exact hc.2 ((contains_iff seen n).mpr hmem)
          · simpa [mkRecord_type] using eq_false_of_ne_true hf

/-- Inversion for a `keep` step. -/
theorem processElement_keep_inv {f seen : List String} {e : RawElement} {n : String}
    {r : PoiRecord} (h : processElement f seen e = .keep n r) :
    elementName e = some n ∧ n ≠ "" ∧ n ∉ seen ∧ r.name = n ∧
      r.type = classify (e.tags.getD []) ∧ r.type ∈ f ∧
      ∃ la lo, resolveCoords e = some (la, lo) ∧ r = mkRecord n la lo (e.tags.getD []) := by
  unfold processElement at h
  split at h
  · cases h
  · rename_i name hn
    split at h
    · cases h
    · rename_i hc
      push_neg at hc
      split at h
      · cases h
      · rename_i la lo hr
        dsimp only at h
        split at h
        · rename_i hf
          cases h
          refine ⟨hn, hc.1, ?_, rfl, rfl, ?_, la, lo, hr, rfl⟩
          · intro hmem
            exact hc.2 ((contains_iff seen n).mpr hmem)
          · exact (contains_iff f _).mp hf
        · cases h

/-- An element with no name, or an empty name, is skipped whatever the state. -/
theorem processElement_skip_of_unnamed {e : RawElement}
    (h : elementName e = none ∨ elementName e = some "") (f seen : List String) :
    processElement f seen e = .skip := by
  unfold processElement
  rcases h with h | h <;> rw [h]
  simp

/-! ## Loop step lemmas -/

theorem normalizeFull_nil (f seen : List String) : normalizeFull f [] seen = some ([], seen) :=
  rfl

theorem normalizeFull_cons_err {f seen : List String} {e : RawElement} (es : List RawElement)
    (hp : processElement f seen e = .err) : normalizeFull f (e :: es) seen = none := by
  rw [normalizeFull, hp]

theorem normalizeFull_cons_skip {f seen : List String} {e : RawElement} (es : List RawElement)
    (hp : processElement f seen e = .skip) :
    normalizeFull f (e :: es) seen = normalizeFull f es seen := by
  rw [normalizeFull, hp]

theorem normalizeFull_cons_dropped {f seen : List String} {e : RawElement} {n : String}
    (es : List RawElement) (hp : processElement f seen e = .dropped n) :
    normalizeFull f (e :: es) seen = normalizeFull f es (n :: seen) := by
  rw [normalizeFull, hp]

theorem normalizeFull_cons_keep {f seen : List String} {e : RawElement} {n : String}
    {r : PoiRecord} (es : List RawElement) (hp : processElement f seen e = .keep n r) :
    normalizeFull f (e :: es) seen =
      (normalizeFull f es (n :: seen)).map fun p => (r :: p.1, p.2) := by
  simp only [normalizeFull, hp]
  cases normalizeFull f es (n :: seen) with
  | none => rfl
  | some p => cases p; rfl

/-! ## Loop invariants -/

/-- The loop processes a concatenation by processing the first part and then
the second from the reached `seen_names` state; output records concatenate in
the same order. -/
theorem normalizeFull_append (f : List String) (es₁ es₂ : List RawElement)
    (seen : List String) :
    normalizeFull f (es₁ ++ es₂) seen =
      (normalizeFull f es₁ seen).bind fun p =>
        (normalizeFull f es₂ p.2).map fun q => (p.1 ++ q.1, q.2) := by
  induction es₁ generalizing seen with
  | nil =>
    rw [List.nil_append, normalizeFull_nil, Option.some_bind]
    cases normalizeFull f es₂ seen with
    | none => rfl
    | some q => cases q; rfl
  | cons e es ih =>
    rw [List.cons_append]
    cases hp : processElement f seen e with
    | err => rw [normalizeFull_cons_err _ hp, normalizeFull_cons_err _ hp, Option.none_bind]
    | skip => rw [normalizeFull_cons_skip _ hp, normalizeFull_cons_skip _ hp, ih]
    | dropped n => rw [normalizeFull_cons_dropped _ hp, normalizeFull_cons_dropped _ hp, ih]
    | keep n r =>
      rw [normalizeFull_cons_keep _ hp, normalizeFull_cons_keep _ hp, ih]
      cases normalizeFull f es (n :: seen) with
      | none => rfl
      | some p => simp [Function.comp_def]

/-- Every record produced from state `seen` has a non-empty name outside
`seen`. -/
theorem normalizeFull_name_fresh {f : List String} {es : List RawElement}
    {seen s' : List String} {out : List PoiRecord}
    (h : normalizeFull f es seen = some (out, s')) :
    ∀ r ∈ out, r.name ∉ seen ∧ r.name ≠ "" := by
  induction es generalizing seen out with
  | nil =>
    rw [normalizeFull_nil, Option.some_inj] at h
    cases h
    intro r hr
    cases hr
  | cons e es ih =>
    cases hp : processElement f seen e with
    | err => rw [normalizeFull_cons_err _ hp] at h; cases h
    | skip =>
      rw [normalizeFull_cons_skip _ hp] at h
      exact ih h
    | dropped n =>
      rw [normalizeFull_cons_dropped _ hp] at h
      intro r hr
      have := ih h r hr
      exact ⟨fun hm => this.1 (List.mem_cons_of_mem n hm), this.2⟩
    | keep n r₀ =>
      rw [normalizeFull_cons_keep _ hp] at h
      cases h1 : normalizeFull f es (n :: seen) with
      | none => rw [h1] at h; cases h
      | some p =>
        obtain ⟨out', s''⟩ := p
        rw [h1, Option.map_some', Option.some_inj] at h
        obtain ⟨hn, hne, hnotseen, hrname, -, -, -⟩ := processElement_keep_inv hp
        have hs : s'' = s' := congrArg Prod.snd h
        subst hs
        have hout : r₀ :: out' = out := congrArg Prod.fst h
        intro r hr
        rw [← hout] at hr
        rcases List.mem_cons.mp hr with hr | hr
        · subst hr
          rw [hrname]
          exact ⟨hnotseen, hne⟩
        · have := ih h1 r hr
          exact ⟨fun hm => this.1 (List.mem_cons_of_mem n hm), this.2⟩

/-- No two output records share a name. -/
theorem normalizeFull_pairwise {f : List String} {es : List RawElement}
    {seen s' : List String} {out : List PoiRecord}
    (h : normalizeFull f es seen = some (out, s')) :
    out.Pairwise fun a b => a.name ≠ b.name := by
  induction es generalizing seen out with
  | nil =>
    rw [normalizeFull_nil, Option.some_inj] at h
    cases h
    exact List.Pairwise.nil
  | cons e es ih =>
    cases hp : processElement f seen e with
    | err => rw [normalizeFull_cons_err _ hp] at h; cases h
    | skip => rw [normalizeFull_cons_skip _ hp] at h; exact ih h
    | dropped n => rw [normalizeFull_cons_dropped _ hp] at h; exact ih h
    | keep n r₀ =>
      rw [normalizeFull_cons_keep _ hp] at h
      cases h1 : normalizeFull f es (n :: seen) with
      | none => rw [h1] at h; cases h
      | some p =>
        obtain ⟨out', s''⟩ := p
        rw [h1, Option.map_some', Option.some_inj] at h
        obtain ⟨-, -, -, hrname, -, -, -⟩ := processElement_keep_inv hp
        have hs : s'' = s' := congrArg Prod.snd h
        subst hs
        have hout : r₀ :: out' = out := congrArg Prod.fst h
        rw [← hout]
        refine List.Pairwise.cons ?_ (ih h1)
        intro r hr
        have := (normalizeFull_name_fresh h1 r hr).1
        rw [hrname]
        intro hEq
        exact this (hEq ▸ List.mem_cons_self _ _)

/-- Every name in the final `seen_names` either was already seen or is the
name of some input element. -/
theorem normalizeFull_seen_mem {f : List String} {es : List RawElement}
    {seen s' : List String} {out : List PoiRecord}
    (h : normalizeFull f es seen = some (out, s')) :
    ∀ m ∈ s', m ∈ seen ∨ ∃ e ∈ es, elementName e = some m := by
  induction es generalizing seen out with
  | nil =>
    rw [normalizeFull_nil, Option.some_inj] at h
    have : seen = s' := congrArg Prod.snd h
    intro m hm
    exact Or.inl (this ▸ hm)
  | cons e es ih =>
    cases hp : processElement f seen e with
    | err => rw [normalizeFull_cons_err _ hp] at h; cases h
    | skip =>
      rw [normalizeFull_cons_skip _ hp] at h
      intro m hm
      rcases ih h m hm with hm' | ⟨e', he', hn⟩
      · exact Or.inl hm'
      · exact Or.inr ⟨e', List.mem_cons_of_mem e he', hn⟩
    | dropped n =>
      rw [normalizeFull_cons_dropped _ hp] at h
      intro m hm
      rcases ih h m hm with hm' | ⟨e', he', hn⟩
      · rcases List.mem_cons.mp hm' with hm'' | hm''
        · subst hm''
          exact Or.inr ⟨e, List.mem_cons_self _ _, (processElement_dropped_inv hp).1⟩
        · exact Or.inl hm''
      · exact Or.inr ⟨e', List.mem_cons_of_mem e he', hn⟩
    | keep n r₀ =>
      rw [normalizeFull_cons_keep _ hp] at h
      cases h1 : normalizeFull f es (n :: seen) with
      | none => rw [h1] at h; cases h
      | some p =>
        obtain ⟨out', s''⟩ := p
        rw [h1, Option.map_some', Option.some_inj] at h
        have hs : s'' = s' := congrArg Prod.snd h
        subst hs
        intro m hm
        rcases ih h1 m hm with hm' | ⟨e', he', hn⟩
        · rcases List.mem_cons.mp hm' with hm'' | hm''
          · subst hm''
            exact Or.inr ⟨e, List.mem_cons_self _ _, (processElement_keep_inv hp).1⟩
          · exact Or.inl hm''
        · exact Or.inr ⟨e', List.mem_cons_of_mem e he', hn⟩

/-- Every output record's resolved category is in `filter_types`. -/
theorem normalizeFull_mem_type {f : List String} {es : List RawElement}
    {seen s' : List String} {out : List PoiRecord}
    (h : normalizeFull f es seen = some (out, s')) :
    ∀ r ∈ out, r.type ∈ f := by
  induction es generalizing seen out with
  | nil =>
    rw [normalizeFull_nil, Option.some_inj] at h
    cases h
    intro r hr
    cases hr
  | cons e es ih =>
    cases hp : processElement f seen e with
    | err => rw [normalizeFull_cons_err _ hp] at h; cases h
    | skip => rw [normalizeFull_cons_skip _ hp] at h; exact ih h
    | dropped n => rw [normalizeFull_cons_dropped _ hp] at h; exact ih h
    | keep n r₀ =>
      rw [normalizeFull_cons_keep _ hp] at h
      cases h1 : normalizeFull f es (n :: seen) with
      | none => rw [h1] at h; cases h
      | some p =>
        obtain ⟨out', s''⟩ := p
        rw [h1, Option.map_some', Option.some_inj] at h
        have hs : s'' = s' := congrArg Prod.snd h
        subst hs
        have hout : r₀ :: out' = out := congrArg Prod.fst h
        intro r hr
        rw [← hout] at hr
        rcases List.mem_cons.mp hr with hr | hr
        · subst hr
          exact (processElement_keep_inv hp).2.2.2.2.2.1
        · exact ih h1 r hr

/-- Provenance: every output record stems from the first input element that
carries its name, via `resolveCoords` and `mkRecord`. -/
theorem normalizeFull_provenance {f : List String} {es : List RawElement}
    {seen s' : List String} {out : List PoiRecord}
    (h : normalizeFull f es seen = some (out, s')) :
    ∀ r ∈ out, ∃ es₁ e es₂ la lo, es = es₁ ++ e :: es₂ ∧
      elementName e = some r.name ∧
      (∀ e' ∈ es₁, elementName e' ≠ some r.name) ∧
      resolveCoords e = some (la, lo) ∧
      r = mkRecord r.name la lo (e.tags.getD []) := by
  induction es generalizing seen out with
  | nil =>
    rw [normalizeFull_nil, Option.some_inj] at h
    cases h
    intro r hr
    cases hr
  | cons e es ih =>
    cases hp : processElement f seen e with
    | err => rw [normalizeFull_cons_err _ hp] at h; cases h
    | skip =>
      rw [normalizeFull_cons_skip _ hp] at h
      intro r hr
      obtain ⟨es₁, e₀, es₂, la, lo, heq, hname, hfirst, hco, hrec⟩ := ih h r hr
      refine ⟨e :: es₁, e₀, es₂, la, lo, by rw [heq, List.cons_append], hname, ?_, hco, hrec⟩
      intro e' he'
      rcases List.mem_cons.mp he' with he' | he'
      · subst he'
        intro hcontra
        rcases processElement_skip_inv hp with hnone | ⟨m, hm, hme⟩
        · rw [hnone] at hcontra; cases hcontra
        · rw [hm] at hcontra
          cases hcontra
          have hfresh := normalizeFull_name_fresh h r hr
          rcases hme with hme | hme
          · exact hfresh.2 hme
          · exact hfresh.1 hme
      · exact hfirst e' he'
    | dropped n =>
      rw [normalizeFull_cons_dropped _ hp] at h
      intro r hr
      obtain ⟨es₁, e₀, es₂, la, lo, heq, hname, hfirst, hco, hrec⟩ := ih h r hr
      refine ⟨e :: es₁, e₀, es₂, la, lo, by rw [heq, List.cons_append], hname, ?_, hco, hrec⟩
      intro e' he'
      rcases List.mem_cons.mp he' with he' | he'
      · subst he'
        rw [(processElement_dropped_inv hp).1]
        intro hcontra
        cases hcontra
        exact (normalizeFull_name_fresh h r hr).1 (List.mem_cons_self _ _)
      · exact hfirst e' he'
    | keep n r₀ =>
      rw [normalizeFull_cons_keep _ hp] at h
      cases h1 : normalizeFull f es (n :: seen) with
      | none => rw [h1] at h; cases h
      | some p =>
        obtain ⟨out', s''⟩ := p
        rw [h1, Option.map_some', Option.some_inj] at h
        have hs : s'' = s' := congrArg Prod.snd h
        subst hs
        have hout : r₀ :: out' = out := congrArg Prod.fst h
        intro r hr
        rw [← hout] at hr
        obtain ⟨hname₀, -, -, hrname₀, -, -, la₀, lo₀, hco₀, hrec₀⟩ :=
          processElement_keep_inv hp
        rcases List.mem_cons.mp hr with hr | hr
        · subst hr
          exact ⟨[], e, es, la₀, lo₀, rfl, by rw [hname₀, hrname₀], by simp,
            hco₀, by rw [hrname₀]; exact hrec₀⟩
        · obtain ⟨es₁, e₀, es₂, la, lo, heq, hname, hfirst, hco, hrec⟩ := ih h1 r hr
          refine ⟨e :: es₁, e₀, es₂, la, lo, by rw [heq, List.cons_append], hname, ?_, hco, hrec⟩
          intro e' he'
          rcases List.mem_cons.mp he' with he' | he'
          · subst he'
            rw [hname₀]
            intro hcontra
            cases hcontra
            exact (normalizeFull_name_fresh h1 r hr).1 (List.mem_cons_self _ _)
          · exact hfirst e' he'

/-! ## Further helper lemmas and spec-side definitions -/

/-- Spec-side address (§4.2 step 6): the present (non-empty) values of the
five address sub-fields in the fixed order, joined with `", "`, or the
placeholder when none is present. -/
def specAddress (tags : Tags) : String :=
  let parts :=
    ([tagGet tags "addr:street", tagGet tags "addr:housenumber", tagGet tags "addr:city",
      tagGet tags "addr:postcode", tagGet tags "addr:country"].flatMap Option.toList).filter
      (fun v => v ≠ "")
  if parts = [] then "Адрес не указан" else String.intercalate ", " parts

theorem addPart_eq (parts : List String) (v : Option String) :
    addPart parts v = parts ++ v.toList.filter (fun s => s ≠ "") := by
  cases v with
  | none => simp [addPart, Option.toList]
  | some s =>
    by_cases hs : s = "" <;> simp [addPart, Option.toList, hs]

theorem buildAddress_eq_specAddress (tags : Tags) : buildAddress tags = specAddress tags := by
  unfold buildAddress specAddress
  simp only [addPart_eq, List.flatMap_cons, List.flatMap_nil, List.filter_append,
    List.nil_append, List.append_assoc, List.append_nil]

/-- Whether a loop step appends a record to `objects`. -/
def isKeep : ElemStep → Bool
  | .keep _ _ => true
  | _ => false

/-- A fresh-named element without resolvable coordinates raises `KeyError`. -/
theorem processElement_err_of {f seen : List String} {e : RawElement} {n : String}
    (hname : elementName e = some n) (hne : n ≠ "") (hns : n ∉ seen)
    (hco : resolveCoords e = none) : processElement f seen e = .err := by
  have hcond : ¬(n = "" ∨ seen.contains n = true) := by
    push_neg
    exact ⟨hne, by simpa [contains_iff] using hns⟩
  simp only [processElement, hname, hco, if_neg hcond]

/-- Inserting an unnamed (or empty-named) element anywhere leaves the loop's
result unchanged. -/
theorem normalizeFull_unnamed_mid (f : List String) (es₁ es₂ : List RawElement)
    (e : RawElement) (seen : List String)
    (hu : elementName e = none ∨ elementName e = some "") :
    normalizeFull f (es₁ ++ e :: es₂) seen = normalizeFull f (es₁ ++ es₂) seen := by
  rw [normalizeFull_append, normalizeFull_append]
  refine congrArg _ (funext fun p => ?_)
  rw [normalizeFull_cons_skip _ (processElement_skip_of_unnamed hu f p.2)]

/-- Each Overpass clause embeds its radius, latitude and longitude
literally. -/
theorem clause_decomp (kind radius lat lon pred : String) :
    (∃ p s, clause kind radius lat lon pred = p ++ radius ++ s) ∧
    (∃ p s, clause kind radius lat lon pred = p ++ lat ++ s) ∧
    (∃ p s, clause kind radius lat lon pred = p ++ lon ++ s) := by
  refine ⟨⟨kind ++ "(around:", "," ++ lat ++ "," ++ lon ++ ")" ++ pred, ?_⟩,
    ⟨kind ++ "(around:" ++ radius ++ ",", "," ++ lon ++ ")" ++ pred, ?_⟩,
    ⟨kind ++ "(around:" ++ radius ++ "," ++ lat ++ ",", ")" ++ pred, ?_⟩⟩ <;>
    simp [clause, String.append_assoc]

/-! ## Concrete fixtures for witnesses and counterexamples -/

/-- A well-formed museum node named `"A"`. -/
def museumNode : RawElement :=
  { etype := some "node", elat := some "59.93", elon := some "30.31",
    center := none, tags := some [("name", "A"), ("tourism", "museum")] }

/-- A second museum node also named `"A"`, at other coordinates. -/
def museumNodeDupA : RawElement :=
  { etype := some "node", elat := some "10", elon := some "20",
    center := none, tags := some [("name", "A"), ("tourism", "museum")] }

/-- A `way` element without a `"center"` mapping: resolving its coordinates
raises `KeyError`. -/
def centerlessWay : RawElement :=
  { etype := some "way", elat := none, elon := none,
    center := none, tags := some [("name", "B"), ("tourism", "museum")] }

/-- A node with tags but no `"name"` tag. -/
def unnamedNode : RawElement :=
  { etype := some "node", elat := some "1", elon := some "2",
    center := none, tags := some [("tourism", "museum"), ("historic", "monument")] }

/-- A monument node named `"A"` (classified `"памятник"`). -/
def monumentNodeA : RawElement :=
  { etype := some "node", elat := some "3", elon := some "4",
    center := none, tags := some [("name", "A"), ("historic", "monument")] }

/-- A worship node with no religion tag but with a tourism tag. -/
def worshipTourismNode : RawElement :=
  { etype := some "node", elat := some "5", elon := some "6",
    center := none,
    tags := some [("name", "W"), ("amenity", "place_of_worship"), ("tourism", "museum")] }

/-- Unfolding of the public function on a well-formed body. -/
theorem get_nearby_fst_eq (f : List String) (es : List RawElement) :
    (get_nearby_objects_osm (.ok (some es)) f).1 = normalize f es := by
  simp only [get_nearby_objects_osm]
  unfold normalize
  cases normalizeFull f es [] with
  | none => rfl
  | some p => cases p; rfl

/-- Membership version of `normalizeFull_mem_type` at the `normalize`
boundary. -/
theorem normalize_mem_type (f : List String) (es : List RawElement) :
    ∀ r ∈ normalize f es, r.type ∈ f := by
  intro r hr
  unfold normalize at hr
  cases h : normalizeFull f es [] with
  | none => rw [h] at hr; cases hr
  | some p =>
    obtain ⟨out, s'⟩ := p
    rw [h] at hr
    exact normalizeFull_mem_type h r hr

/-! ## Claims -/

/-- C1 (counterexample): the museum node alone yields one record, but adding
one element without a resolvable coordinate empties the whole result: the
well-formed element no longer appears, so the failure is not confined to the
malformed element. -/
theorem C1_counterexample :
    (normalize defaultFilterTypes [museumNode]).map (fun r => r.name) = ["A"] ∧
    get_nearby_objects_osm (.ok (some [museumNode, centerlessWay])) defaultFilterTypes =
      ([], some "Ошибка при обработке ответа: KeyError") := by
  exact ⟨rfl, rfl⟩

/-- C1 (amended): an element that is neither a `"node"` nor carries a
`"center"` mapping, once its fresh non-empty name is read, raises `KeyError`;
the handler at lines 136-138 catches it for the whole response, so the
function returns the empty list with a diagnostic and no element of the
response appears. -/
theorem C1_amended_missing_coordinate_aborts_batch (f : List String)
    (es₁ es₂ : List RawElement) (e : RawElement) (n : String)
    (hname : elementName e = some n) (hne : n ≠ "") (hco : resolveCoords e = none)
    (hfirst : ∀ e' ∈ es₁, elementName e' ≠ some n) :
    get_nearby_objects_osm (.ok (some (es₁ ++ e :: es₂))) f =
      ([], some "Ошибка при обработке ответа: KeyError") := by
  have hmain : normalizeFull f (es₁ ++ e :: es₂) [] = none := by
    rw [normalizeFull_append]
    cases h1 : normalizeFull f es₁ [] with
    | none => rfl
    | some p =>
      obtain ⟨out₁, s₁⟩ := p
      have hns : n ∉ s₁ := by
        intro hmem
        rcases normalizeFull_seen_mem h1 n hmem with hc | ⟨e', he', hn'⟩
        · cases hc
        · exact hfirst e' he' hn'
      rw [Option.some_bind,
        normalizeFull_cons_err es₂ (processElement_err_of hname hne hns hco)]
      rfl
  simp only [get_nearby_objects_osm, hmain]

theorem C1_amended_witness :
    get_nearby_objects_osm (.ok (some ([museumNode] ++ centerlessWay :: []))) ["музей"] =
      ([], some "Ошибка при обработке ответа: KeyError") :=
  C1_amended_missing_coordinate_aborts_batch ["музей"] [museumNode] [] centerlessWay "B"
    rfl (by decide) rfl (by decide)

/-- C2: a transport failure and a body without the `"elements"` key are both
caught: the caller gets the empty list together with a logged diagnostic. -/
theorem C2_transport_and_malformed_return_empty :
    (∀ msg f_types, get_nearby_objects_osm (.transportError msg) f_types =
      ([], some ("Ошибка при запросе к Overpass API: " ++ msg))) ∧
    (∀ f_types, get_nearby_objects_osm (.ok none) f_types =
      ([], some "Ошибка при обработке ответа: 'elements'")) :=
  ⟨fun _ _ => rfl, fun _ => rfl⟩

/-- C3: no two output records share a name; each output record is built from
the first input element carrying its name; and the loop treats
concatenations in order (the output for `es₁ ++ es₂` is the output for
`es₁` followed by the output for `es₂` from the reached state). -/
theorem C3_dedup_first_wins :
    (∀ f es, (normalize f es).Pairwise fun a b => a.name ≠ b.name) ∧
    (∀ f es r, r ∈ normalize f es →
      ∃ es₁ e es₂ la lo, es = es₁ ++ e :: es₂ ∧ elementName e = some r.name ∧
        (∀ e' ∈ es₁, elementName e' ≠ some r.name) ∧ resolveCoords e = some (la, lo) ∧
        r = mkRecord r.name la lo (e.tags.getD [])) ∧
    (∀ f es₁ es₂ out₁ s₁, normalizeFull f es₁ [] = some (out₁, s₁) →
      normalizeFull f (es₁ ++ es₂) [] =
        (normalizeFull f es₂ s₁).map fun q => (out₁ ++ q.1, q.2)) := by
  refine ⟨?_, ?_, ?_⟩
  · intro f es
    unfold normalize
    cases h : normalizeFull f es [] with
    | none => exact List.Pairwise.nil
    | some p =>
      obtain ⟨out, s'⟩ := p
      exact normalizeFull_pairwise h
  · intro f es r hr
    unfold normalize at hr
    cases h : normalizeFull f es [] with
    | none => rw [h] at hr; cases hr
    | some p =>
      obtain ⟨out, s'⟩ := p
      rw [h] at hr
      exact normalizeFull_provenance h r hr
  · intro f es₁ es₂ out₁ s₁ h1
    rw [normalizeFull_append, h1, Option.some_bind]

theorem C3_witness :
    normalizeFull ["музей"] [museumNode] [] =
      some ([mkRecord "A" "59.93" "30.31" [("name", "A"), ("tourism", "museum")]], ["A"]) ∧
    normalizeFull ["музей"] ([museumNode] ++ [museumNodeDupA]) [] =
      (normalizeFull ["музей"] [museumNodeDupA] ["A"]).map fun q =>
        ([mkRecord "A" "59.93" "30.31" [("name", "A"), ("tourism", "museum")]] ++ q.1, q.2) :=
  ⟨rfl, C3_dedup_first_wins.2.2 ["музей"] [museumNode] [museumNodeDupA]
    [mkRecord "A" "59.93" "30.31" [("name", "A"), ("tourism", "museum")]] ["A"] rfl⟩

/-- C4: an element without a `"name"` tag, or with an empty name, leaves the
result unchanged wherever it sits — it never yields a record and never
affects deduplication. -/
theorem C4_unnamed_never_output (f : List String) (es₁ es₂ : List RawElement)
    (e : RawElement) (hu : elementName e = none ∨ elementName e = some "") :
    normalize f (es₁ ++ e :: es₂) = normalize f (es₁ ++ es₂) := by
  unfold normalize
  rw [normalizeFull_unnamed_mid f es₁ es₂ e [] hu]

theorem C4_witness :
    normalize defaultFilterTypes ([] ++ unnamedNode :: [museumNode]) =
      normalize defaultFilterTypes ([] ++ [museumNode]) :=
  C4_unnamed_never_output defaultFilterTypes [] [museumNode] unnamedNode (Or.inl rfl)

/-- C5: the classification rules are evaluated in the fixed order
artwork → historic → worship → museum → generic tourism → fallback, first
match wins; in particular `historic=monument` together with
`tourism=museum` resolves to `"памятник"`, not `"музей"`. -/
theorem C5_classification_priority :
    (∀ tags, tagIs tags "artwork" ["statue", "sculpture"] = true →
      classify tags = "статуя") ∧
    (∀ tags, tagIs tags "artwork" ["statue", "sculpture"] = false →
      tagIs tags "historic" ["monument", "memorial"] = true →
      classify tags = "памятник") ∧
    (∀ tags, tagIs tags "artwork" ["statue", "sculpture"] = false →
      tagIs tags "historic" ["monument", "memorial"] = false →
      tagIs tags "amenity" ["place_of_worship"] = true →
      classify tags = worshipType (pyLower ((tagGet tags "religion").getD ""))) ∧
    (∀ tags, tagIs tags "artwork" ["statue", "sculpture"] = false →
      tagIs tags "historic" ["monument", "memorial"] = false →
      tagIs tags "amenity" ["place_of_worship"] = false →
      tagIs tags "tourism" ["museum"] = true →
      classify tags = "музей") ∧
    (∀ tags, tagIs tags "artwork" ["statue", "sculpture"] = false →
      tagIs tags "historic" ["monument", "memorial"] = false →
      tagIs tags "amenity" ["place_of_worship"] = false →
      tagIs tags "tourism" ["museum"] = false →
      (tagGet tags "tourism").isSome = true →
      classify tags = "достопримечательность") ∧
    (∀ tags, tagIs tags "artwork" ["statue", "sculpture"] = false →
      tagIs tags "historic" ["monument", "memorial"] = false →
      tagIs tags "amenity" ["place_of_worship"] = false →
      tagIs tags "tourism" ["museum"] = false →
      tagGet tags "tourism" = none →
      classify tags = "интересное место") ∧
    classify [("historic", "monument"), ("tourism", "museum")] = "памятник" := by
  refine ⟨?_, ?_, ?_, ?_, ?_, ?_, by decide⟩
  · intro tags h1
    simp [classify, h1]
  · intro tags h1 h2
    simp [classify, h1, h2]
  · intro tags h1 h2 h3
    simp [classify, h1, h2, h3]
  · intro tags h1 h2 h3 h4
    simp [classify, h1, h2, h3, h4]
  · intro tags h1 h2 h3 h4 h5
    simp [classify, h1, h2, h3, h4, h5]
  · intro tags h1 h2 h3 h4 h5
    simp [classify, h1, h2, h3, h4, h5]

theorem C5_witness :
    classify [("historic", "memorial"), ("amenity", "place_of_worship"),
      ("tourism", "museum")] = "памятник" :=
  C5_classification_priority.2.1 _ (by decide) (by decide)

/-- C6: an emitted record's address is `buildAddress` of its tags;
`buildAddress` equals the spec-side concatenation of the present non-empty
address sub-fields in fixed order with `", "`; with none present it is the
placeholder, and with only `addr:city = "Paris"` it is `"Paris"`. -/
theorem C6_address_assembly :
    (∀ n la lo tags, (mkRecord n la lo tags).address = buildAddress tags) ∧
    (∀ tags, buildAddress tags = specAddress tags) ∧
    (∀ tags, (∀ k ∈ ["addr:street", "addr:housenumber", "addr:city",
        "addr:postcode", "addr:country"],
        tagGet tags k = none ∨ tagGet tags k = some "") →
      buildAddress tags = "Адрес не указан") ∧
    buildAddress [("addr:city", "Paris")] = "Paris" := by
  refine ⟨fun _ _ _ _ => rfl, buildAddress_eq_specAddress, ?_, by decide⟩
  intro tags hnone
  have hstep : ∀ parts k, tagGet tags k = none ∨ tagGet tags k = some "" →
      addPart parts (tagGet tags k) = parts := by
    intro parts k hk
    rcases hk with hk | hk <;> simp [addPart, hk]
  simp only [buildAddress]
  rw [hstep _ _ (hnone _ (by simp)), hstep _ _ (hnone _ (by simp)),
    hstep _ _ (hnone _ (by simp)), hstep _ _ (hnone _ (by simp)),
    hstep _ _ (hnone _ (by simp)), if_pos rfl]

theorem C6_witness :
    buildAddress [("website", "x"), ("addr:country", "")] = "Адрес не указан" :=
  C6_address_assembly.2.2.1 _ (by decide)

/-- Every member of a category's clause list is a `clause` around the same
radius and coordinates. -/
theorem clausesFor_mem {radius lat lon t c : String}
    (hc : c ∈ clausesFor radius lat lon t) :
    ∃ kind pred, c = clause kind radius lat lon pred := by
  simp only [clausesFor] at hc
  split at hc
  · simp only [List.mem_cons, List.not_mem_nil, or_false] at hc
    rcases hc with rfl | rfl | rfl | rfl <;> exact ⟨_, _, rfl⟩
  · split at hc
    · simp only [List.mem_cons, List.not_mem_nil, or_false] at hc
      rcases hc with rfl | rfl | rfl | rfl <;> exact ⟨_, _, rfl⟩
    · split at hc
      · simp only [List.mem_cons, List.not_mem_nil, or_false] at hc
        rcases hc with rfl | rfl <;> exact ⟨_, _, rfl⟩
      · split at hc
        · simp only [List.mem_cons, List.not_mem_nil, or_false] at hc
          rcases hc with rfl | rfl <;> exact ⟨_, _, rfl⟩
        · split at hc
          · simp only [List.mem_cons, List.not_mem_nil, or_false] at hc
            rcases hc with rfl | rfl <;> exact ⟨_, _, rfl⟩
          · cases hc

/-- C7: each recognized category contributes exactly its sub-rule clauses
(4 for statues, 4 for monuments, 2 for each worship name, 2 for museums,
2 for generic sights); every clause embeds the literal radius, latitude and
longitude; an unrecognized category contributes no clause; and the query
clause list is the concatenation of the per-category contributions. -/
theorem C7_query_clauses :
    (∀ radius lat lon, (clausesFor radius lat lon "статуя").length = 4 ∧
      (clausesFor radius lat lon "памятник").length = 4 ∧
      (clausesFor radius lat lon "церковь").length = 2 ∧
      (clausesFor radius lat lon "дацан").length = 2 ∧
      (clausesFor radius lat lon "мечеть").length = 2 ∧
      (clausesFor radius lat lon "индуистский храм").length = 2 ∧
      (clausesFor radius lat lon "музей").length = 2 ∧
      (clausesFor radius lat lon "достопримечательность").length = 2) ∧
    (∀ radius lat lon f_type c, c ∈ clausesFor radius lat lon f_type →
      (∃ p s, c = p ++ radius ++ s) ∧ (∃ p s, c = p ++ lat ++ s) ∧
      (∃ p s, c = p ++ lon ++ s)) ∧
    (∀ f_type, pyLower f_type ∉ defaultFilterTypes →
      ∀ radius lat lon, clausesFor radius lat lon f_type = []) ∧
    (∀ radius lat lon filter_types,
      (query_parts radius lat lon filter_types).length =
        (filter_types.map fun t => (clausesFor radius lat lon t).length).sum) := by
  refine ⟨?_, ?_, ?_, ?_⟩
  · intro radius lat lon
    exact ⟨rfl, rfl, rfl, rfl, rfl, rfl, rfl, rfl⟩
  · intro radius lat lon f_type c hc
    obtain ⟨kind, pred, rfl⟩ := clausesFor_mem hc
    exact clause_decomp kind radius lat lon pred
  · intro f_type ht radius lat lon
    simp only [defaultFilterTypes, List.mem_cons, List.not_mem_nil, or_false,
      not_or] at ht
    obtain ⟨h1, h2, h3, h4, h5, h6, h7, h8⟩ := ht
    simp [clausesFor, h1, h2, h3, h4, h5, h6, h7, h8]
  · intro radius lat lon filter_types
    induction filter_types with
    | nil => rfl
    | cons t ts ih =>
      simp [query_parts, List.flatMap_cons, List.length_append, ih, Function.comp_def]

theorem C7_witness :
    ((∃ p s, clause "node" "1000" "59.9" "30.3"
        "[\x22tourism\x22=\x22museum\x22][\x22name\x22]" = p ++ "1000" ++ s) ∧
      (∃ p s, clause "node" "1000" "59.9" "30.3"
        "[\x22tourism\x22=\x22museum\x22][\x22name\x22]" = p ++ "59.9" ++ s) ∧
      (∃ p s, clause "node" "1000" "59.9" "30.3"
        "[\x22tourism\x22=\x22museum\x22][\x22name\x22]" = p ++ "30.3" ++ s)) ∧
    clausesFor "1000" "59.9" "30.3" "cafe" = [] :=
  ⟨C7_query_clauses.2.1 "1000" "59.9" "30.3" "музей"
      (clause "node" "1000" "59.9" "30.3" "[\x22tourism\x22=\x22museum\x22][\x22name\x22]")
      (by decide),
   C7_query_clauses.2.2.1 "cafe" (by decide) "1000" "59.9" "30.3"⟩

/-- C8: every record the caller receives has a resolved category belonging
to the requested `filter_types`. -/
theorem C8_output_category_in_requested (resp : HttpOutcome) (f : List String) :
    ∀ r ∈ (get_nearby_objects_osm resp f).1, r.type ∈ f := by
  intro r hr
  cases resp with
  | transportError msg => cases hr
  | ok data =>
    cases data with
    | none => cases hr
    | some es =>
      rw [get_nearby_fst_eq] at hr
      exact normalize_mem_type f es r hr

theorem C8_witness :
    (mkRecord "A" "59.93" "30.31" [("name", "A"), ("tourism", "museum")]).type ∈
      ["музей"] :=
  C8_output_category_in_requested (.ok (some [museumNode])) ["музей"]
    (mkRecord "A" "59.93" "30.31" [("name", "A"), ("tourism", "museum")]) (by decide)

/-- Provenance restated at the `normalize` boundary. -/
theorem normalize_provenance (f : List String) (es : List RawElement) :
    ∀ r ∈ normalize f es, ∃ es₁ e es₂ la lo, es = es₁ ++ e :: es₂ ∧
      elementName e = some r.name ∧
      (∀ e' ∈ es₁, elementName e' ≠ some r.name) ∧
      resolveCoords e = some (la, lo) ∧
      r = mkRecord r.name la lo (e.tags.getD []) := by
  intro r hr
  unfold normalize at hr
  cases h : normalizeFull f es [] with
  | none => rw [h] at hr; cases hr
  | some p =>
    obtain ⟨out, s'⟩ := p
    rw [h] at hr
    exact normalizeFull_provenance h r hr

/-- Two first-occurrence decompositions of one list name the same element. -/
theorem first_occurrence_unique {n : String} :
    ∀ (l₁ l₁' l₂ l₂' : List RawElement) (x y : RawElement),
      l₁ ++ x :: l₂ = l₁' ++ y :: l₂' →
      elementName x = some n → elementName y = some n →
      (∀ a ∈ l₁, elementName a ≠ some n) → (∀ a ∈ l₁', elementName a ≠ some n) →
      x = y := by
  intro l₁
  induction l₁ with
  | nil =>
    intro l₁' l₂ l₂' x y hEq hx hy h₁ h₁'
    cases l₁' with
    | nil =>
      rw [List.nil_append, List.nil_append] at hEq
      injection hEq
    | cons b t =>
      rw [List.nil_append, List.cons_append] at hEq
      injection hEq with h1 h2
      exact absurd (h1 ▸ hx) (h₁' b (List.mem_cons_self b t))
  | cons a t ih =>
    intro l₁' l₂ l₂' x y hEq hx hy h₁ h₁'
    cases l₁' with
    | nil =>
      rw [List.nil_append, List.cons_append] at hEq
      injection hEq with h1 h2
      refine absurd ?_ (h₁ a (List.mem_cons_self a t))
      rw [h1]
      exact hy
    | cons b t' =>
      rw [List.cons_append, List.cons_append] at hEq
      injection hEq with h1 h2
      subst h1
      exact ih t' l₂ l₂' x y h2 hx hy
        (fun a' ha' => h₁ a' (List.mem_cons_of_mem _ ha'))
        (fun a' ha' => h₁' a' (List.mem_cons_of_mem _ ha'))

/-- C9: a named element whose record is dropped by the category filter still
consumes its name: no later element can emit a record carrying that name. -/
theorem C9_dropped_name_blocks_later (f : List String) (es₁ es₂ : List RawElement)
    (e : RawElement) (n : String)
    (hname : elementName e = some n) (_hne : n ≠ "")
    (hfirst : ∀ e' ∈ es₁, elementName e' ≠ some n)
    (hnotf : classify (e.tags.getD []) ∉ f) :
    ∀ r ∈ normalize f (es₁ ++ e :: es₂), r.name ≠ n := by
  intro r hr hrn
  obtain ⟨l₁, e₀, l₂, la, lo, hsplit, hname₀, hfirst₀, hco₀, hrec₀⟩ :=
    normalize_provenance f (es₁ ++ e :: es₂) r hr
  rw [hrn] at hname₀ hfirst₀
  have he : e = e₀ :=
    first_occurrence_unique es₁ l₁ es₂ l₂ e e₀ hsplit hname hname₀ hfirst hfirst₀
  have htype := normalize_mem_type f (es₁ ++ e :: es₂) r hr
  rw [hrec₀, mkRecord_type] at htype
  rw [he] at hnotf
  exact hnotf htype

theorem C9_witness :
    mkRecord "A" "10" "20" [("name", "A"), ("tourism", "museum")] ∉
      normalize ["музей"] [monumentNodeA, museumNodeDupA] := by
  intro hmem
  exact C9_dropped_name_blocks_later ["музей"] [] [museumNodeDupA] monumentNodeA "A"
    rfl (by decide) (by simp) (by decide)
    (mkRecord "A" "10" "20" [("name", "A"), ("tourism", "museum")]) hmem rfl

/-- C10: when the worship rule matches but the religion is absent or
unrecognized, classification yields the generic fallback label even in the
presence of a tourism tag, and under the default requested categories such
an element never appends a record. -/
theorem C10_worship_fallback :
    (∀ tags, tagIs tags "artwork" ["statue", "sculpture"] = false →
      tagIs tags "historic" ["monument", "memorial"] = false →
      tagGet tags "amenity" = some "place_of_worship" →
      pyLower ((tagGet tags "religion").getD "") ∉
        ["christian", "buddhist", "muslim", "hindu"] →
      classify tags = "интересное место") ∧
    (∀ (e : RawElement) (seen : List String),
      tagIs (e.tags.getD []) "artwork" ["statue", "sculpture"] = false →
      tagIs (e.tags.getD []) "historic" ["monument", "memorial"] = false →
      tagGet (e.tags.getD []) "amenity" = some "place_of_worship" →
      pyLower ((tagGet (e.tags.getD []) "religion").getD "") ∉
        ["christian", "buddhist", "muslim", "hindu"] →
      isKeep (processElement defaultFilterTypes seen e) = false) := by
  have hclass : ∀ tags : Tags, tagIs tags "artwork" ["statue", "sculpture"] = false →
      tagIs tags "historic" ["monument", "memorial"] = false →
      tagGet tags "amenity" = some "place_of_worship" →
      pyLower ((tagGet tags "religion").getD "") ∉
        ["christian", "buddhist", "muslim", "hindu"] →
      classify tags = "интересное место" := by
    intro tags h1 h2 h3 h4
    have h3' : tagIs tags "amenity" ["place_of_worship"] = true := by
      simp [tagIs, h3]
    simp only [List.mem_cons, List.not_mem_nil, or_false, not_or] at h4
    obtain ⟨hr1, hr2, hr3, hr4⟩ := h4
    simp [classify, worshipType, h1, h2, h3', hr1, hr2, hr3, hr4]
  refine ⟨hclass, ?_⟩
  intro e seen h1 h2 h3 h4
  cases hn : elementName e with
  | none => simp [processElement, hn, isKeep]
  | some name =>
    simp only [processElement, hn]
    split
    · rfl
    · cases hco : resolveCoords e with
      | none => simp [hco, isKeep]
      | some p =>
        obtain ⟨la, lo⟩ := p
        simp only [hco]
        have hmem : (mkRecord name la lo (e.tags.getD [])).type ∉ defaultFilterTypes := by
          rw [mkRecord_type, hclass _ h1 h2 h3 h4]
          decide
        simp [hmem, isKeep]

theorem C10_witness :
    classify [("name", "W"), ("amenity", "place_of_worship"), ("tourism", "museum")] =
      "интересное место" ∧
    isKeep (processElement defaultFilterTypes [] worshipTourismNode) = false :=
  ⟨C10_worship_fallback.1 [("name", "W"), ("amenity", "place_of_worship"),
      ("tourism", "museum")] (by decide) (by decide) (by decide) (by decide),
   C10_worship_fallback.2 worshipTourismNode [] (by decide) (by decide) (by decide)
     (by decide)⟩

end Geolocator
